import Mathlib

/-
  Verification development for the github-stats-modified repository
  (src/github_stats.py).  The Python source is shallowly embedded:
  pure fragments become Lean functions, JSON values become the inductive
  type J, Python exceptions become Except, the asyncio interleaving of
  Stats.get_stats and its accessors becomes an explicit step relation.
-/

/-- A JSON value as produced by `response.json()` in Python
(None / bool / int / str / list / dict). -/
inductive J where
  | null : J
  | bool (b : Bool) : J
  | num (n : Int) : J
  | str (s : String) : J
  | arr (xs : List J) : J
  | obj (fields : List (String × J)) : J

/-- Python truthiness (`if not r: ...`): None, False, 0, "", [], {} are falsy. -/
def J.isTruthy : J → Bool
  | .null => false
  | .bool b => b
  | .num n => n != 0
  | .str s => s != ""
  | .arr xs => !xs.isEmpty
  | .obj fs => !fs.isEmpty

/-- Python `isinstance(r, dict)`. -/
def J.isObj : J → Bool
  | .obj _ => true
  | _ => false

/-- Python `isinstance(r, list)`. -/
def J.isArr : J → Bool
  | .arr _ => true
  | _ => false

/-- Python `x is None` on a decoded JSON value. -/
def J.isNull : J → Bool
  | .null => true
  | _ => false

/-- The elements of a JSON array (empty for non-arrays; used under isArr guards). -/
def J.elems : J → List J
  | .arr xs => xs
  | _ => []

/-- Python `d.get(key, default)` on a value already known to be a dict
(non-dicts yield the default; every use site is guarded by an isinstance
check or a prior `.get` that produced a dict). -/
def J.getD (j : J) (key : String) (dflt : J) : J :=
  match j with
  | .obj fs =>
    match fs.find? (fun kv => kv.1 == key) with
    | some kv => kv.2
    | none => dflt
  | _ => dflt

/-- Python `d.get(key, default)` where calling `.get` on a non-dict raises
AttributeError (modelled as Except.error). -/
def pyGetD (j : J) (key : String) (dflt : J) : Except Unit J :=
  match j with
  | .obj _ => .ok (j.getD key dflt)
  | _ => .error ()

/-- Python `d[key]` subscription: KeyError on a missing key, TypeError on a
value that is not a dict. -/
def pyGetItem (j : J) (key : String) : Except Unit J :=
  match j with
  | .obj fs =>
    match fs.find? (fun kv => kv.1 == key) with
    | some kv => .ok kv.2
    | none => .error ()
  | _ => .error ()

/-- Bool membership of one character list inside another (helper for the
`in` operator on strings). -/
def charsInfix (needle : List Char) : List Char → Bool
  | [] => needle.isEmpty
  | c :: rest => needle.isPrefixOf (c :: rest) || charsInfix needle rest

/-- Python `key in j`: key membership for dicts, element equality for lists,
substring test for strings, TypeError otherwise. -/
def pyIn (key : String) (j : J) : Except Unit Bool :=
  match j with
  | .obj fs => .ok (fs.any (fun kv => kv.1 == key))
  | .arr xs => .ok (xs.any (fun x => match x with | .str s => s == key | _ => false))
  | .str s => .ok (charsInfix key.data s.data)
  | _ => .error ()

/-- Python str.lower() on one character, for the ASCII range that the
configuration values and upstream names use (defined structurally so that
concrete instances evaluate inside the kernel). -/
def lowerChar (c : Char) : Char :=
  if c.toNat ≥ 65 ∧ c.toNat ≤ 90 then Char.ofNat (c.toNat + 32) else c

/-- Python str.lower(). -/
def lowerString (s : String) : String := String.mk (s.data.map lowerChar)

/-- Python `acc += v` where acc is an int and v a decoded JSON value:
ints and bools add, anything else raises TypeError. -/
def pyNumAdd (acc : Int) (j : J) : Option Int :=
  match j with
  | .num n => some (acc + n)
  | .bool b => some (acc + (if b then 1 else 0))
  | _ => none

/-
  Transport layer: Queries.query (github_stats.py lines 34-66).

  The aiohttp attempt and the requests fallback are each modelled by the
  outcome of their `.json()` call: `.error` when the POST or the decode
  raised, `.ok j` when a JSON value was decoded (`j = J.null` is Python
  None, which fails the `result is not None` test).
-/

/-- Stats.Queries.query: try the async transport; on exception fall back on
the synchronous transport; a decoded non-None JSON value is returned as is;
a decoded None falls through to `return dict()`.  The fallback is NOT
wrapped in try/except, so its exception propagates to the caller.
The second component counts fallback invocations. -/
def query (asyncR fallbackR : Except Unit J) : (Except Unit J) × Nat :=
  match asyncR with
  | .ok j => if j.isNull then (.ok (J.obj []), 0) else (.ok j, 0)
  | .error _ =>
    match fallbackR with
    | .ok j => if j.isNull then (.ok (J.obj []), 1) else (.ok j, 1)
    | .error e => (.error e, 1)

/-
  Transport layer: Queries.query_rest (github_stats.py lines 68-150).

  Each of the 60 loop iterations is described by the observable outcome of
  its aiohttp attempt; when that attempt raised, by the outcome of the
  requests fallback that runs inside the except block.
-/

/-- Outcome of the synchronous requests fallback inside one attempt of
query_rest. -/
inductive FallbackOutcome where
  | fb202 : FallbackOutcome
  | fb403 : FallbackOutcome
  | fb404 : FallbackOutcome
  /-- status 200 with decoded body (J.null = Python None). -/
  | fb200 (j : J) : FallbackOutcome
  /-- any status other than 200/202/403/404: falls out of the if-chain. -/
  | fbOther : FallbackOutcome
  /-- the fallback itself raised; caught by the inner except. -/
  | fbRaise : FallbackOutcome

/-- Outcome of the aiohttp attempt in one iteration of query_rest's loop. -/
inductive AttemptOutcome where
  | s202 : AttemptOutcome
  | s403 : AttemptOutcome
  | s404 : AttemptOutcome
  /-- any other status, with the decoded body (J.null = Python None,
  which fails the `result is not None` test and falls to the next
  attempt). -/
  | ok (j : J) : AttemptOutcome
  /-- the request or the decode raised; the except block runs the
  fallback. -/
  | exc (fb : FallbackOutcome) : AttemptOutcome

/-- Stats.Queries.query_rest: `for attempt in range(60)`, 202/403 sleep and
retry, 404 returns dict() immediately, a decoded non-None body is
returned; on exception the requests fallback is consulted with the same
status handling; after the attempt budget is exhausted it returns dict().
The attempt list plays the role of `range(60)`: the real call site passes
60 outcomes. -/
def query_rest : List AttemptOutcome → J
  | [] => J.obj []
  | a :: rest =>
    match a with
    | .s202 => query_rest rest
    | .s403 => query_rest rest
    | .s404 => J.obj []
    | .ok j => if j.isNull then query_rest rest else j
    | .exc fb =>
      match fb with
      | .fb202 => query_rest rest
      | .fb403 => query_rest rest
      | .fb404 => J.obj []
      | .fb200 j => if j.isNull then query_rest rest else j
      | .fbOther => query_rest rest
      | .fbRaise => query_rest rest

/-
  Stats.lines_changed (github_stats.py lines 641-686) and Stats.views
  (lines 689-724).  Per repository, the REST response is traversed inside a
  try/except; an exception keeps the additions/deletions accumulated so
  far for that repository and moves on to the next one.  foldE threads the
  accumulator and reports an exception together with the state at the
  point where it was raised.
-/

/-- Fold that stops at the first exception, carrying the accumulator state
at the raise point (Python mutates the outer accumulators in place, so
work done before an exception is kept). -/
def foldE (f : β → α → Except β β) : β → List α → Except β β
  | st, [] => .ok st
  | st, a :: rest =>
    match f st a with
    | .ok st2 => foldE f st2 rest
    | .error s => .error s

/-- One week entry: `if isinstance(week, dict): additions += week.get("a", 0);
deletions += week.get("d", 0)`.  A non-numeric value raises TypeError after
the preceding addition already happened. -/
def weekStep (st : Int × Int) (w : J) : Except (Int × Int) (Int × Int) :=
  if w.isObj then
    match pyNumAdd st.1 (w.getD "a" (J.num 0)) with
    | none => .error st
    | some a =>
      match pyNumAdd st.2 (w.getD "d" (J.num 0)) with
      | none => .error (a, st.2)
      | some d => .ok (a, d)
  else .ok st

/-- One author entry of a /stats/contributors response: skip when the entry
or its author is not a dict, skip when the login does not case-insensitively
match the username, then fold the weeks. A non-string login raises
AttributeError at `.lower()`. -/
def authorStep (username : String) (st : Int × Int) (ao : J) :
    Except (Int × Int) (Int × Int) :=
  if !ao.isObj || !(ao.getD "author" (J.obj [])).isObj then .ok st
  else
    match (ao.getD "author" (J.obj [])).getD "login" (J.str "") with
    | .str login =>
      if lowerString login != lowerString username then .ok st
      else
        let weeks := ao.getD "weeks" (J.arr [])
        if !weeks.isArr then .ok st
        else foldE weekStep st weeks.elems
    | _ => .error st

/-- Contribution of one repository to lines_changed, given the already
accumulated totals and the query_rest result for that repository:
`if not r or not isinstance(r, list): continue`, otherwise traverse the
author entries; the surrounding try/except turns an exception into
`continue`, keeping whatever was accumulated before it. -/
def lines_changed_repo (username : String) (st : Int × Int) (r : J) :
    Int × Int :=
  if !r.isTruthy || !r.isArr then st
  else
    match foldE (authorStep username) st r.elems with
    | .ok s => s
    | .error s => s

/-- Stats.lines_changed: fold over the repository set; the oracle maps the
REST path actually requested to the query_rest result for it. -/
def lines_changed (username : String) (oracle : String → J)
    (repos : List String) : Int × Int :=
  repos.foldl
    (fun st repo =>
      lines_changed_repo username st
        (oracle ("/repos/" ++ repo ++ "/stats/contributors")))
    (0, 0)

/-- Contribution of one repository to views, given the accumulated total
and the query_rest result: `if not r or not isinstance(r, dict): continue`,
then sum `view.get("count", 0)` over the dict entries of r["views"]. -/
def views_repo (st : Int) (r : J) : Int :=
  if !r.isTruthy || !r.isObj then st
  else
    let viewsData := r.getD "views" (J.arr [])
    if !viewsData.isArr then st
    else
      match foldE
        (fun acc v =>
          if v.isObj then
            match pyNumAdd acc (v.getD "count" (J.num 0)) with
            | some t => .ok t
            | none => .error acc
          else .ok acc)
        st viewsData.elems with
      | .ok s => s
      | .error s => s

/-- Stats.views: fold over the repository set with the 14-day traffic
endpoint. -/
def views (oracle : String → J) (repos : List String) : Int :=
  repos.foldl
    (fun st repo => views_repo st (oracle ("/repos/" ++ repo ++ "/traffic/views")))
    0

/-
  Aggregator core: Stats.get_stats (github_stats.py lines 395-527).

  The repository nodes delivered by the paginated GraphQL responses are
  embedded as records whose Option-typed fields record key presence; the
  defaults of the source's `.get` chains are applied at the exact places
  the source applies them.
-/

/-- One entry of languages.edges:
size = lang.get("size", 0), name = lang.get("node", {}).get("name", "Other"),
color = lang.get("node", {}).get("color"). -/
structure LangEdge where
  size : Option Int
  nodeName : Option String
  nodeColor : Option String
deriving DecidableEq

/-- One repository node of a repos_overview response (fields as read by
get_stats with their .get defaults applied at the use sites). -/
structure RepoNode where
  nameWithOwner : Option String
  stargazersTotalCount : Option Int
  forkCount : Option Int
  languages : List LangEdge
deriving DecidableEq

/-- Value stored in self._languages for one language name. -/
structure LangStat where
  size : Int
  occurrences : Nat
  color : Option String
deriving DecidableEq

/-- The shared attributes that get_stats populates.  _repos is a Python
set of (possibly missing) nameWithOwner values; membership order does not
matter and so it is modelled as an append-ordered duplicate-free list.
_languages is an insertion-ordered Python dict. -/
structure FetchSt where
  name : Option String
  stargazers : Int
  forks : Int
  languages : List (String × LangStat)
  repos : List (Option String)
deriving DecidableEq

/-- Empty state as produced by lines 409-412 of get_stats. -/
def initFetchSt : FetchSt := ⟨none, 0, 0, [], []⟩

/-- Python `name in self._exclude_repos` where name may be None and the
exclusion set contains strings. -/
def memOptStr (name : Option String) (xs : List String) : Bool :=
  match name with
  | some s => xs.contains s
  | none => false

/-- Update self._languages at lang_name: existing key gets size += lang_size
and occurrences += 1 (first-seen color kept); a new key is appended with
occurrences 1 and the edge's color. -/
def langsAdd (m : List (String × LangStat)) (langName : String)
    (langSize : Int) (color : Option String) : List (String × LangStat) :=
  match m with
  | [] => [(langName, ⟨langSize, 1, color⟩)]
  | (k, v) :: rest =>
    if k = langName then (k, ⟨v.size + langSize, v.occurrences + 1, v.color⟩) :: rest
    else (k, v) :: langsAdd rest langName langSize color

/-- Body of `for lang in repo_langs` (lines 479-492): skip the edge when
the lowercased name is in exclude_langs_lower, otherwise merge it into
self._languages. -/
def processLang (excludeLangsLower : List String)
    (m : List (String × LangStat)) (lang : LangEdge) : List (String × LangStat) :=
  let langName := lang.nodeName.getD "Other"
  let langSize := lang.size.getD 0
  if excludeLangsLower.contains (lowerString langName) then m
  else langsAdd m langName langSize lang.nodeColor

/-- Body of `for repo in repos` (lines 460-492): skip None nodes and nodes
whose name is already in self._repos or in self._exclude_repos; otherwise
add the name to the repository set and accumulate the stargazer count, the
fork count and the language edges. -/
def processRepo (excludeRepos : List String) (excludeLangsLower : List String)
    (st : FetchSt) (repo : Option RepoNode) : FetchSt :=
  match repo with
  | none => st
  | some r =>
    let name := r.nameWithOwner
    if st.repos.contains name || memOptStr name excludeRepos then st
    else
      { st with
        repos := st.repos ++ [name]
        stargazers := st.stargazers + r.stargazersTotalCount.getD 0
        forks := st.forks + r.forkCount.getD 0
        languages := r.languages.foldl (processLang excludeLangsLower) st.languages }

/-- One pagination connection of a repos_overview response:
hasNextPage = pageInfo.get("hasNextPage", False); the outer Option of
endCursor is key presence (the .get default being the previous cursor),
the inner Option is a JSON-null cursor; nodes = .get("nodes", []). -/
structure PageConn where
  hasNextPage : Bool
  endCursor : Option (Option String)
  nodes : List (Option RepoNode)
deriving DecidableEq

/-- One repos_overview response as read by the loop body: viewer.name
(absent or null -> none), viewer.login (absent -> none, defaulted to
"No Name" at the use site), the owned-repositories connection and the
contributed-to connection. -/
structure PageResp where
  name : Option String
  login : Option String
  ownedRepos : PageConn
  contribRepos : PageConn
deriving DecidableEq

/-- One iteration of the `while True` body of get_stats (lines 423-494,
without the cursor bookkeeping): set self._name from the response, build
repos = owned nodes plus (unless ignore_forked_repos) contributed-to
nodes, and fold processRepo over them. -/
def processPage (ignoreForkedRepos : Bool) (excludeRepos excludeLangsLower : List String)
    (st : FetchSt) (resp : PageResp) : FetchSt :=
  let st1 := { st with
    name := some (match resp.name with
      | some n => n
      | none => resp.login.getD "No Name") }
  let repos := resp.ownedRepos.nodes ++
    (if ignoreForkedRepos then [] else resp.contribRepos.nodes)
  repos.foldl (processRepo excludeRepos excludeLangsLower) st1

/-- Cursor bookkeeping carried around the page loop. -/
structure LoopSt where
  st : FetchSt
  nextOwned : Option String
  nextContrib : Option String

/-- The `while True` pagination loop of get_stats, with fuel making the
potential divergence explicit (none = the loop is still running after
consuming all fuel).  stream i is the response decoded on iteration i.
The loop recurses while either connection reports hasNextPage, updating
each cursor to endCursor when that key is present, and otherwise breaks,
returning the accumulated state. -/
def get_stats_loop (ignoreForkedRepos : Bool)
    (excludeRepos excludeLangsLower : List String) (stream : Nat → PageResp) :
    Nat → Nat → LoopSt → Option FetchSt
  | 0, _, _ => none
  | fuel + 1, i, ls =>
    let resp := stream i
    let st := processPage ignoreForkedRepos excludeRepos excludeLangsLower ls.st resp
    if resp.ownedRepos.hasNextPage || resp.contribRepos.hasNextPage then
      get_stats_loop ignoreForkedRepos excludeRepos excludeLangsLower stream fuel (i + 1)
        ⟨st, resp.ownedRepos.endCursor.getD ls.nextOwned,
             resp.contribRepos.endCursor.getD ls.nextContrib⟩
    else some st

/-- Lines 511-515 of get_stats: langs_total = sum of the sizes, then each
language gets prop = 100 * (size / langs_total) when langs_total > 0 and
0 otherwise.  Python float division is modelled by exact rational
division. -/
def computeProps (langs : List (String × LangStat)) : List (String × ℚ) :=
  let langsTotal : Int := (langs.map (fun kv => kv.2.size)).sum
  langs.map (fun kv =>
    (kv.1, if langsTotal > 0 then 100 * ((kv.2.size : ℚ) / (langsTotal : ℚ)) else 0))

/-- Line 414 of get_stats: exclude_langs_lower = the lowercased exclusion
set. -/
def excludeLangsLowerOf (excludeLangs : List String) : List String :=
  excludeLangs.map lowerString

/-- Derived description of the repository nodes that the skip test of
processRepo lets through: the first occurrence of each name that is not in
seen and not excluded.  Used to state that every repository contributes to
the running totals at most once. -/
def keptRepos (excludeRepos : List String) :
    List (Option String) → List (Option RepoNode) → List RepoNode
  | _, [] => []
  | seen, none :: rest => keptRepos excludeRepos seen rest
  | seen, some r :: rest =>
    if seen.contains r.nameWithOwner || memOptStr r.nameWithOwner excludeRepos then
      keptRepos excludeRepos seen rest
    else r :: keptRepos excludeRepos (seen ++ [r.nameWithOwner]) rest

/-- The repository nodes processed by a sequence of pages, in processing
order: per page the owned nodes followed (unless ignore_forked_repos) by
the contributed-to nodes. -/
def pagesNodes (ignoreForkedRepos : Bool) (ps : List PageResp) :
    List (Option RepoNode) :=
  (ps.map (fun p => p.ownedRepos.nodes ++
    (if ignoreForkedRepos then [] else p.contribRepos.nodes))).flatten

/-
  Concurrency model for Stats.get_stats and its dependent accessors
  (github_stats.py lines 395-549, driven concurrently by
  generate_images.py via asyncio.gather).

  asyncio schedules cooperatively: a coroutine runs atomically between
  awaits.  The machine below keeps the shared attributes touched by the
  stargazers accessor (representative of the accessors that depend on the
  core fetch) and one control state per coroutine; every transition
  corresponds to the code executed between two awaits.  fetchCount
  instruments how many times the fetch-and-merge sequence was started,
  and pages lists the stargazer increment delivered by each page of the
  loop (one await per page).
-/

/-- Shared attributes of one Stats instance as seen by get_stats and the
stargazers accessor, plus instrumentation. -/
structure SharedSt where
  stargazers : Option Int
  statsFetched : Bool
  lockHeld : Bool
  fetchCount : Nat
  pageIdx : Nat
deriving DecidableEq

/-- Control state of one coroutine running `await self.stargazers`. -/
inductive CoSt where
  /-- about to evaluate `if self._stargazers is not None`. -/
  | acStart : CoSt
  /-- inside get_stats, waiting on `async with self._stats_lock`. -/
  | gsWait : CoSt
  /-- lock acquired, about to test `self._stats_fetched`. -/
  | gsCheck : CoSt
  /-- executing the page loop with the lock held. -/
  | gsLoop : CoSt
  /-- returned from the accessor with value v. -/
  | done (v : Int) : CoSt
deriving DecidableEq

/-- One atomic scheduling quantum of a single coroutine. -/
inductive CoStep (pages : List Int) : SharedSt → CoSt → SharedSt → CoSt → Prop
  /-- the accessor's fast path: self._stargazers is not None, return it
  without touching the lock (lines 545-546). -/
  | acHit (sh : SharedSt) (v : Int) :
      sh.stargazers = some v → CoStep pages sh .acStart sh (.done v)
  /-- self._stargazers is None: call get_stats (line 547). -/
  | acMiss (sh : SharedSt) :
      sh.stargazers = none → CoStep pages sh .acStart sh .gsWait
  /-- acquire the asyncio lock when free (line 404). -/
  | acquire (sh : SharedSt) :
      sh.lockHeld = false →
      CoStep pages sh .gsWait { sh with lockHeld := true } .gsCheck
  /-- self._stats_fetched already true: release the lock, return from
  get_stats and read the memoized field (lines 406-407, 548-549). -/
  | checkFetched (sh : SharedSt) (v : Int) :
      sh.statsFetched = true → sh.stargazers = some v →
      CoStep pages sh .gsCheck { sh with lockHeld := false } (.done v)
  /-- not fetched yet: zero the accumulators (lines 409-412) and issue the
  first page query; one fetch-and-merge sequence starts. -/
  | checkInit (sh : SharedSt) :
      sh.statsFetched = false →
      CoStep pages sh .gsCheck
        { sh with stargazers := some 0, pageIdx := 0,
                  fetchCount := sh.fetchCount + 1 } .gsLoop
  /-- one page response arrives and its stargazer counts are accumulated
  (lines 427-494); the loop then awaits the next page. -/
  | page (sh : SharedSt) (v : Int) (h : sh.pageIdx < pages.length) :
      sh.stargazers = some v →
      CoStep pages sh .gsLoop
        { sh with stargazers := some (v + pages.get ⟨sh.pageIdx, h⟩),
                  pageIdx := sh.pageIdx + 1 } .gsLoop
  /-- the last page reported no next page: mark the stats fetched, release
  the lock and return the accumulated value (lines 505-506, 527,
  548-549). -/
  | finish (sh : SharedSt) (v : Int) :
      sh.pageIdx = pages.length → sh.stargazers = some v →
      CoStep pages sh .gsLoop
        { sh with statsFetched := true, lockHeld := false } (.done v)

/-- Whole-system state: the shared attributes and every consumer
coroutine. -/
structure Sys where
  shared : SharedSt
  coros : List CoSt
deriving DecidableEq

/-- The scheduler picks any coroutine and runs its next quantum. -/
inductive SysStep (pages : List Int) : Sys → Sys → Prop
  | mk (s : Sys) (i : Nat) (h : i < s.coros.length) (sh2 : SharedSt) (c2 : CoSt) :
      CoStep pages s.shared s.coros[i] sh2 c2 →
      SysStep pages s ⟨sh2, s.coros.set i c2⟩

/-- n consumers concurrently awaiting self.stargazers on a fresh Stats
instance (all memo fields None, lock free, nothing fetched). -/
def initSys (n : Nat) : Sys :=
  ⟨⟨none, false, false, 0, 0⟩, List.replicate n .acStart⟩

/-- States reachable under some interleaving. -/
def Reachable (pages : List Int) (n : Nat) (s : Sys) : Prop :=
  Relation.ReflTransGen (SysStep pages) (initSys n) s

/-- Coroutines inside the lock-guarded section of get_stats. -/
def inLock : CoSt → Bool
  | .gsCheck => true
  | .gsLoop => true
  | _ => false

/-
  Query builders and Stats.total_contributions
  (github_stats.py lines 267-312 and 604-638).
-/

/-- Decimal digit run parser (helper for Python int() on strings, defined
structurally so that concrete instances evaluate inside the kernel). -/
def digitsToNat? : List Char → Option Nat
  | [] => none
  | cs => go cs 0
where
  go : List Char → Nat → Option Nat
    | [], acc => some acc
    | c :: rest, acc =>
      if c.isDigit then go rest (acc * 10 + (c.toNat - 48)) else none

/-- Python `int(x)`: ints pass through, bools become 0/1, strings of an
optional sign and decimal digits are parsed, anything else raises. -/
def pyInt : J → Except Unit Int
  | .num n => .ok n
  | .bool b => .ok (if b then 1 else 0)
  | .str s =>
    (match s.data with
     | '-' :: rest => (digitsToNat? rest).map (fun n => -(n : Int))
     | '+' :: rest => (digitsToNat? rest).map (fun n => (n : Int))
     | cs => (digitsToNat? cs).map (fun n => (n : Int))).elim (.error ()) .ok
  | _ => .error ()

/-- Python str() as used by f-string interpolation, for the value shapes
that can reach it here (ints, strings, bools, None; lists and dicts never
reach an interpolation in this development because int() raises first). -/
def pyFStr : J → String
  | .num n => toString n
  | .str s => s
  | .bool b => if b then "True" else "False"
  | .null => "None"
  | .arr _ => ""
  | .obj _ => ""

/-- Python iteration over a decoded JSON value (`map(f, years)`): lists
yield elements, strings yield characters, dicts yield keys, the rest
raises TypeError. -/
def pyIter : J → Except Unit (List J)
  | .arr xs => .ok xs
  | .str s => .ok (s.data.map (fun c => J.str (String.mk [c])))
  | .obj fs => .ok (fs.map (fun kv => J.str kv.1))
  | _ => .error ()

/-- Python `d.values()`: AttributeError on non-dicts. -/
def pyValues : J → Except Unit (List J)
  | .obj fs => .ok (fs.map (fun kv => kv.2))
  | _ => .error ()

/-- Queries.contrib_years: the fixed document asking for all contribution
years. -/
def contrib_years : String :=
  "\nquery \x7b\n  viewer \x7b\n    contributionsCollection \x7b\n      contributionYears\n    \x7d\n  \x7d\n\x7d\n"

/-- Queries.contribs_by_year: the aliased per-year sub-query
`year<Y>: contributionsCollection(from: ..., to: ...)`; `int(year) + 1`
raises for non-numeric years. -/
def contribs_by_year (year : J) : Except Unit String := do
  let n ← pyInt year
  .ok ("\n    year" ++ pyFStr year ++ ": contributionsCollection(\n        from: \"" ++
    pyFStr year ++ "-01-01T00:00:00Z\",\n        to: \"" ++ toString (n + 1) ++
    "-01-01T00:00:00Z\"\n    ) \x7b\n      contributionCalendar \x7b\n        totalContributions\n      \x7d\n    \x7d\n")

/-- Queries.all_contribs: one document containing every per-year sub-query
joined by newlines. -/
def all_contribs (years : List J) : Except Unit String := do
  let parts ← years.mapM contribs_by_year
  .ok ("\nquery \x7b\n  viewer \x7b\n    " ++ String.intercalate "\n" parts ++ "\n  \x7d\n\x7d\n")

/-- The years list as extracted by total_contributions (lines 614-620). -/
def extractYears (r : J) : Except Unit J := do
  let d ← pyGetD r "data" (J.obj [])
  let v ← pyGetD d "viewer" (J.obj [])
  let cc ← pyGetD v "contributionsCollection" (J.obj [])
  pyGetD cc "contributionYears" (J.arr [])

/-- data.viewer of the batched response (lines 627-632). -/
def extractViewer (r : J) : Except Unit J := do
  let d ← pyGetD r "data" (J.obj [])
  pyGetD d "viewer" (J.obj [])

/-- Lines 633-635: for each value of data.viewer, add
`year.get("contributionCalendar", {}).get("totalContributions", 0)` to the
running total threaded through the loop. -/
def sumContribsGo : List J → Int → Except Unit Int
  | [], acc => .ok acc
  | y :: ys, acc => do
    let cc ← pyGetD y "contributionCalendar" (J.obj [])
    let t ← pyGetD cc "totalContributions" (J.num 0)
    match pyNumAdd acc t with
    | some n => sumContribsGo ys n
    | none => .error ()

/-- The summation loop started at self._total_contributions = 0. -/
def sumContribs (vals : List J) : Except Unit Int := sumContribsGo vals 0

/-- The per-year total-contribution value delivered by one value of
data.viewer in the batched response, as an integer (the same extraction
steps sumContribs applies to it). -/
def perYearVal (y : J) : Except Unit Int := do
  let cc ← pyGetD y "contributionCalendar" (J.obj [])
  let t ← pyGetD cc "totalContributions" (J.num 0)
  match pyNumAdd 0 t with
  | some n => .ok n
  | none => .error ()

/-- Stats.total_contributions (lines 604-638): fetch the contribution
years; if the list is falsy return 0 (with a logged warning); otherwise
issue the single batched all_contribs query and sum the per-year totals
over data.viewer.values(). -/
def total_contributions (oracle : String → J) : Except Unit Int := do
  let years ← extractYears (oracle contrib_years)
  if years.isTruthy = false then .ok 0
  else
    let ys ← pyIter years
    let doc ← all_contribs ys
    let viewer ← extractViewer (oracle doc)
    let vals ← pyValues viewer
    sumContribs vals

/-
  Stats.total_commits (github_stats.py lines 726-770).
-/

/-- The GraphQL document built inside `for email in self._emails`
(lines 734-742).  The email loop variable is in scope but the f-string
interpolates only self.username. -/
def user_commits_doc (username : String) (email : String) : String :=
  "\n                query \x7b\n                  user(login: \"" ++ username ++
  "\") \x7b\n                    contributionsCollection \x7b\n                      totalCommitContributions\n                    \x7d\n                  \x7d\n                \x7d\n                "

/-- The GraphQL document built in the else branch (lines 752-760); same
shape, different indentation. -/
def user_commits_doc_single (username : String) : String :=
  "\n            query \x7b\n              user(login: \"" ++ username ++
  "\") \x7b\n                contributionsCollection \x7b\n                  totalCommitContributions\n                \x7d\n              \x7d\n            \x7d\n            "

/-- `if "data" in response and "user" in response["data"]` followed by the
direct subscriptions down to totalCommitContributions; `.ok none` is the
else branch (a printed error, nothing extracted). -/
def commitsRespValue (resp : J) : Except Unit (Option J) := do
  let h1 ← pyIn "data" resp
  if h1 then
    let d ← pyGetItem resp "data"
    let h2 ← pyIn "user" d
    if h2 then
      let d2 ← pyGetItem resp "data"
      let u ← pyGetItem d2 "user"
      let cc ← pyGetItem u "contributionsCollection"
      let t ← pyGetItem cc "totalCommitContributions"
      .ok (some t)
    else .ok none
  else .ok none

/-- The email loop of total_commits: one query per email identity,
`total_commits += total_commit` on success, failed extraction contributes
0.  The Nat counts issued GraphQL queries. -/
def total_commits_emails (oracle : String → J) (username : String) :
    List String → Int → (Except Unit J) × Nat
  | [], acc => (.ok (J.num acc), 0)
  | e :: es, acc =>
    let resp := oracle (user_commits_doc username e)
    match commitsRespValue resp with
    | .ok (some t) =>
      match pyNumAdd acc t with
      | some n =>
        let r := total_commits_emails oracle username es n
        (r.1, r.2 + 1)
      | none => (.error (), 1)
    | .ok none =>
      let r := total_commits_emails oracle username es acc
      (r.1, r.2 + 1)
    | .error err => (.error err, 1)

/-- Stats.total_commits: `if self._emails:` (falsy for None and for the
empty list) chooses between the per-email loop and one username query
whose extracted value is returned unchanged (`total_commits = response[...]`
is a plain assignment, so a non-numeric value would be returned as is).
The Nat counts issued GraphQL queries. -/
def total_commits (oracle : String → J) (username : String)
    (emails : Option (List String)) : (Except Unit J) × Nat :=
  match emails with
  | some (e :: es) => total_commits_emails oracle username (e :: es) 0
  | _ =>
    match commitsRespValue (oracle (user_commits_doc_single username)) with
    | .ok (some t) => (.ok t, 1)
    | .ok none => (.ok (J.num 0), 1)
    | .error err => (.error err, 1)

/-- The memo field self._total_commits created in Stats.__init__
(line 342). -/
structure CommitsMemo where
  totalCommitsMemo : Option Int
deriving DecidableEq

/-- One read of the total_commits property: the body (lines 726-770)
neither reads nor writes self._total_commits, so the memo state passes
through unchanged and the queries are issued on every read. -/
def total_commits_read (oracle : String → J) (username : String)
    (emails : Option (List String)) (st : CommitsMemo) :
    ((Except Unit J) × Nat) × CommitsMemo :=
  (total_commits oracle username emails, st)

/-
  Concrete inputs used by instance theorems and witnesses.
-/

/-- The language edges of the case-sensitivity example: "html" with size
100 and "Python" with size 300. -/
def c9Edges : List LangEdge :=
  [⟨some 100, some "html", none⟩, ⟨some 300, some "Python", some "#3572A5"⟩]

/-- A contribution-years response listing 2020 and 2021. -/
def c8Resp1 : J :=
  J.obj [("data", J.obj [("viewer", J.obj [("contributionsCollection",
    J.obj [("contributionYears", J.arr [J.str "2020", J.str "2021"])])])])]

/-- A batched all-years response reporting 5 for year2020 and 7 for
year2021. -/
def c8Resp2 : J :=
  J.obj [("data", J.obj [("viewer", J.obj [
    ("year2020", J.obj [("contributionCalendar", J.obj [("totalContributions", J.num 5)])]),
    ("year2021", J.obj [("contributionCalendar", J.obj [("totalContributions", J.num 7)])])])])]

/-- Transport serving the two responses above. -/
def c8Oracle : String → J :=
  fun doc => if doc = contrib_years then c8Resp1 else c8Resp2

/-- Transport whose contribution-years list is empty. -/
def c8EmptyOracle : String → J :=
  fun _ => J.obj [("data", J.obj [("viewer", J.obj [("contributionsCollection",
    J.obj [("contributionYears", J.arr [])])])])]

/-- A commit-contribution response with totalCommitContributions = 3. -/
def commitsResp3 : J :=
  J.obj [("data", J.obj [("user", J.obj [("contributionsCollection",
    J.obj [("totalCommitContributions", J.num 3)])])])]

/-- A deterministic transport answering every document with
commitsResp3. -/
def commitsOracle3 : String → J := fun _ => commitsResp3

/-- A /stats/contributors response: one author "Octo" with one week of
10 additions and 4 deletions. -/
def lcResp : J :=
  J.arr [J.obj [("author", J.obj [("login", J.str "Octo")]),
    ("weeks", J.arr [J.obj [("a", J.num 10), ("d", J.num 4)]])]]

/-- REST transport for the C7 witness: repository r1 has data, every other
path (including r2, whose endpoint 404ed) yields the empty dict. -/
def c7Oracle : String → J :=
  fun p => if p = "/repos/r1/stats/contributors" then lcResp else J.obj []

/-- A concrete repository page: octo/r1 appears twice (duplicate), one
node is excluded as bad/repo, one node is None, and octo/r2 arrives on the
contributed-to connection. -/
def c4Page : PageResp :=
  { name := some "Octo Cat", login := some "octo",
    ownedRepos := ⟨false, none,
      [some ⟨some "octo/r1", some 2, some 1, [⟨some 5, some "Python", none⟩]⟩,
       some ⟨some "octo/r1", some 100, some 100, []⟩,
       some ⟨some "bad/repo", some 7, some 7, []⟩,
       none]⟩,
    contribRepos := ⟨false, none, [some ⟨some "octo/r2", some 3, some 0, []⟩]⟩ }

/-
  Theorems.
-/

/-- Helper: shifting the accumulator of a Python += through pyNumAdd. -/
theorem pyNumAdd_shift (t : J) (n : Int) (h : pyNumAdd 0 t = some n) :
    ∀ acc : Int, pyNumAdd acc t = some (acc + n) := by
  intro acc
  cases t <;> simp [pyNumAdd] at h ⊢ <;> omega

/-- C5, counterexample: the claim says a transient transport fault never
surfaces to the caller of Queries.query as an exception, the call instead
degrading to an empty object; but when the aiohttp attempt raises and the
requests fallback raises as well, the fallback's exception propagates
(lines 54-66 have no try around the fallback). -/
theorem c5_counterexample :
    ¬ (∀ asyncR fallbackR : Except Unit J, ∃ j, (query asyncR fallbackR).1 = .ok j) := by
  intro h
  rcases h (.error ()) (.error ()) with ⟨j, hj⟩
  simp [query] at hj

/-- C5 (amended): Queries.query consults the synchronous fallback exactly
once, and only when the aiohttp attempt raised; a decoded non-None body is
returned from either path and a decoded None degrades to the empty object;
but an exception raised by the fallback itself propagates to the caller,
and that is the only way query fails to return a value. -/
theorem c5_query_retries_once (asyncR fallbackR : Except Unit J) :
    (query asyncR fallbackR).2 ≤ 1 ∧
    ((query asyncR fallbackR).2 = 0 ↔ ∃ j, asyncR = .ok j) ∧
    (∀ j, asyncR = .ok j → j.isNull = false → (query asyncR fallbackR).1 = .ok j) ∧
    (asyncR = .ok J.null → (query asyncR fallbackR).1 = .ok (J.obj [])) ∧
    (∀ j, asyncR = .error () → fallbackR = .ok j → j.isNull = false →
      (query asyncR fallbackR).1 = .ok j) ∧
    (asyncR = .error () → fallbackR = .ok J.null →
      (query asyncR fallbackR).1 = .ok (J.obj [])) ∧
    (∀ e, (query asyncR fallbackR).1 = .error e →
      asyncR = .error () ∧ fallbackR = .error e) := by
  cases asyncR with
  | ok j =>
    refine ⟨?_, ?_, ?_, ?_, ?_, ?_, ?_⟩ <;>
      cases j <;> simp [query, J.isNull]
  | error e =>
    cases fallbackR with
    | ok j =>
      refine ⟨?_, ?_, ?_, ?_, ?_, ?_, ?_⟩ <;>
        cases j <;> simp [query, J.isNull]
    | error e2 =>
      refine ⟨?_, ?_, ?_, ?_, ?_, ?_, ?_⟩ <;> simp [query]

/-- C5 witness: the amended theorem applied at concrete transports. -/
theorem c5_query_retries_once_witness :
    (query (.ok (J.num 1)) (.error ())).1 = .ok (J.num 1) ∧
    (query (.error ()) (.ok (J.num 2))).1 = .ok (J.num 2) ∧
    (query (.error ()) (.ok J.null)).1 = .ok (J.obj []) ∧
    ((.error () : Except Unit J) = .error () ∧ (.error () : Except Unit J) = .error ()) :=
  ⟨(c5_query_retries_once (.ok (J.num 1)) (.error ())).2.2.1 (J.num 1) rfl rfl,
   (c5_query_retries_once (.error ()) (.ok (J.num 2))).2.2.2.2.1 (J.num 2) rfl rfl rfl,
   (c5_query_retries_once (.error ()) (.ok J.null)).2.2.2.2.2.1 rfl rfl,
   (c5_query_retries_once (.error ()) (.error ())).2.2.2.2.2.2 () rfl⟩

/-- C7: a REST attempt answered with HTTP 404 (on either transport path)
makes query_rest return the empty dict immediately, independently of the
remaining retry budget; in lines_changed and views a repository whose
query_rest result is the empty dict contributes zero additions, deletions
and view counts, and the totals over a repository list containing such a
repository equal the totals with it removed, so every remaining repository
is still processed. -/
theorem c7_rest_404_and_isolation :
    (∀ rest, query_rest (.s404 :: rest) = J.obj []) ∧
    (∀ rest, query_rest (.exc .fb404 :: rest) = J.obj []) ∧
    (∀ username st, lines_changed_repo username st (J.obj []) = st) ∧
    (∀ st, views_repo st (J.obj []) = st) ∧
    (∀ (username : String) (oracle : String → J) (pre post : List String) (bad : String),
      oracle ("/repos/" ++ bad ++ "/stats/contributors") = J.obj [] →
      lines_changed username oracle (pre ++ bad :: post) =
        lines_changed username oracle (pre ++ post)) ∧
    (∀ (oracle : String → J) (pre post : List String) (bad : String),
      oracle ("/repos/" ++ bad ++ "/traffic/views") = J.obj [] →
      views oracle (pre ++ bad :: post) = views oracle (pre ++ post)) := by
  refine ⟨fun rest => rfl, fun rest => rfl,
    fun username st => rfl, fun st => rfl, ?_, ?_⟩
  · intro username oracle pre post bad hbad
    have hskip : ∀ (u : String) (s : Int × Int), lines_changed_repo u s (J.obj []) = s :=
      fun _ _ => rfl
    simp only [lines_changed, List.foldl_append, List.foldl_cons, hbad, hskip]
  · intro oracle pre post bad hbad
    have hskip : ∀ s : Int, views_repo s (J.obj []) = s := fun _ => rfl
    simp only [views, List.foldl_append, List.foldl_cons, hbad, hskip]

/-- C7 witness: with repository r2 404ing to an empty dict, the totals over
[r1, r2] equal the totals over [r1] alone, and the concrete per-repo facts
of the theorem at username octo. -/
theorem c7_rest_404_and_isolation_witness :
    query_rest [.s404, .s202] = J.obj [] ∧
    lines_changed_repo "octo" (3, 4) (J.obj []) = (3, 4) ∧
    views_repo "octo".length (J.obj []) = "octo".length ∧
    lines_changed "octo" c7Oracle (["r1"] ++ "r2" :: []) =
      lines_changed "octo" c7Oracle (["r1"] ++ []) :=
  ⟨c7_rest_404_and_isolation.1 [.s202],
   c7_rest_404_and_isolation.2.2.1 "octo" (3, 4),
   c7_rest_404_and_isolation.2.2.2.1 "octo".length,
   c7_rest_404_and_isolation.2.2.2.2.1 "octo" c7Oracle ["r1"] [] "r2" rfl⟩

/-- C9: language exclusion is matched case-insensitively (the configured
set is lowercased at line 414 and the edge's name is lowercased at the
comparison site) while the language map is keyed by the upstream name
verbatim: with excluded set containing HTML and edges html(100) and
Python(300), the language map holds exactly Python at proportion 100%. -/
theorem c9_language_exclusion_case_insensitive :
    computeProps (c9Edges.foldl (processLang (excludeLangsLowerOf ["HTML"])) []) =
      [("Python", (100 : ℚ))] := by
  have h1 : c9Edges.foldl (processLang (excludeLangsLowerOf ["HTML"])) [] =
      [("Python", ⟨300, 1, some "#3572A5"⟩)] := by decide
  rw [h1]
  simp only [computeProps, List.map_cons, List.map_nil, List.sum_cons, List.sum_nil]
  norm_num

/-- C3, code_bug evaluation: the total_commits property re-issues its
GraphQL query on every read and never consults or populates
self._total_commits.  Starting from the freshly constructed memo state
(None, per Stats.__init__ line 342), a first read returns 3 after one
query and leaves the memo None, and a second read issues another query
(two transport calls in total) instead of returning a memoized value. -/
theorem c3_total_commits_not_memoized :
    total_commits_read commitsOracle3 "octo" none ⟨none⟩ =
      ((Except.ok (J.num 3), 1), ⟨none⟩) ∧
    (total_commits_read commitsOracle3 "octo" none
        (total_commits_read commitsOracle3 "octo" none ⟨none⟩).2).1 =
      (Except.ok (J.num 3), 1) ∧
    (total_commits_read commitsOracle3 "octo" none ⟨none⟩).1.2 +
      (total_commits_read commitsOracle3 "octo" none
        (total_commits_read commitsOracle3 "octo" none ⟨none⟩).2).1.2 = 2 := by
  refine ⟨rfl, rfl, rfl⟩

/-- Helper: a list of integers cast to rationals sums to the cast of its
sum. -/
theorem sum_map_ratCast (l : List Int) :
    (l.map (fun n : Int => (n : ℚ))).sum = ((l.sum : Int) : ℚ) := by
  induction l with
  | nil => simp
  | cons a l ih =>
    simp only [List.map_cons, List.sum_cons, ih]
    push_cast
    ring

/-- Helper: summing 100 * (n / T) over a list of integers. -/
theorem sum_map_prop (l : List Int) (T : ℚ) :
    (l.map (fun n : Int => 100 * ((n : ℚ) / T))).sum =
      (l.map (fun n : Int => (n : ℚ))).sum * (100 / T) := by
  induction l with
  | nil => simp
  | cons a l ih =>
    simp only [List.map_cons, List.sum_cons, ih]
    ring

/-- C2: after the core fetch, each language's proportion is
100 * size / total (0 when the total is 0, per the guard on line 514);
consequently the proportions sum to exactly 100 whenever the accumulated
total size is positive, and are all 0 when the total is 0.  Python float
division is modelled by exact rational division, so the claim's
floating-point tolerance becomes exactness. -/
theorem c2_language_proportions (langs : List (String × LangStat)) :
    ((langs.map (fun kv => kv.2.size)).sum > 0 →
      ((computeProps langs).map (fun kv => kv.2)).sum = 100) ∧
    ((langs.map (fun kv => kv.2.size)).sum = 0 →
      ∀ p ∈ (computeProps langs).map (fun kv => kv.2), p = 0) := by
  have hsnd : (computeProps langs).map (fun kv => kv.2) =
      (langs.map (fun kv => kv.2.size)).map
        (fun n : Int =>
          if (langs.map (fun kv => kv.2.size)).sum > 0 then
            100 * ((n : ℚ) / (((langs.map (fun kv => kv.2.size)).sum : Int) : ℚ))
          else 0) := by
    simp only [computeProps, List.map_map]
    rfl
  constructor
  · intro hT
    have hT0 : (((langs.map (fun kv => kv.2.size)).sum : Int) : ℚ) ≠ 0 := by
      exact_mod_cast hT.ne.symm
    rw [hsnd]
    have hite : (fun n : Int =>
        if (langs.map (fun kv => kv.2.size)).sum > 0 then
          100 * ((n : ℚ) / (((langs.map (fun kv => kv.2.size)).sum : Int) : ℚ))
        else 0) =
        fun n : Int =>
          100 * ((n : ℚ) / (((langs.map (fun kv => kv.2.size)).sum : Int) : ℚ)) :=
      funext fun n => if_pos hT
    rw [hite, sum_map_prop, sum_map_ratCast, ← mul_div_assoc, mul_comm, mul_div_assoc,
      div_self hT0, mul_one]
  · intro hT p hp
    rw [hsnd] at hp
    simp only [List.mem_map] at hp
    obtain ⟨n, _, hn⟩ := hp
    rw [hT] at hn
    simp at hn
    exact hn.symm

/-- C2 witness: the theorem applied at a map with total 4 (sum of
proportions is 100) and at a map with total 0 (all proportions are 0). -/
theorem c2_language_proportions_witness :
    ((computeProps [("A", ⟨1, 1, none⟩), ("B", ⟨3, 1, none⟩)]).map (fun kv => kv.2)).sum = 100 ∧
    ∀ p ∈ (computeProps [("C", (⟨0, 1, none⟩ : LangStat))]).map (fun kv => kv.2), p = 0 :=
  ⟨(c2_language_proportions [("A", ⟨1, 1, none⟩), ("B", ⟨3, 1, none⟩)]).1 (by decide),
   (c2_language_proportions [("C", ⟨0, 1, none⟩)]).2 (by decide)⟩


/-- Helper: unrolling one step of the contribution summation loop when the
per-year extraction succeeds. -/
theorem sumContribsGo_cons_ok (y : J) (n : Int) (hy : perYearVal y = .ok n)
    (ys : List J) (acc : Int) :
    sumContribsGo (y :: ys) acc = sumContribsGo ys (acc + n) := by
  unfold perYearVal at hy
  show (do
    let cc ← pyGetD y "contributionCalendar" (J.obj [])
    let t ← pyGetD cc "totalContributions" (J.num 0)
    match pyNumAdd acc t with
    | some n => sumContribsGo ys n
    | none => .error ()) = sumContribsGo ys (acc + n)
  cases h1 : pyGetD y "contributionCalendar" (J.obj []) with
  | error e => rw [h1] at hy; simp [Bind.bind, Except.bind] at hy
  | ok cc =>
    rw [h1] at hy
    simp only [Bind.bind, Except.bind] at hy ⊢
    cases h2 : pyGetD cc "totalContributions" (J.num 0) with
    | error e => rw [h2] at hy; simp at hy
    | ok t =>
      rw [h2] at hy
      cases t with
      | null => simp [pyNumAdd] at hy
      | bool b =>
        cases b <;> simp [pyNumAdd] at hy ⊢ <;> (congr 1; omega)
      | num m =>
        simp [pyNumAdd] at hy ⊢
        congr 1
        omega
      | str s => simp [pyNumAdd] at hy
      | arr xs => simp [pyNumAdd] at hy
      | obj fs => simp [pyNumAdd] at hy

/-- Helper: the summation loop adds exactly the per-year values. -/
theorem sumContribsGo_eq_sum (vals : List J) (ts : List Int)
    (h : vals.mapM perYearVal = .ok ts) :
    ∀ acc, sumContribsGo vals acc = .ok (acc + ts.sum) := by
  induction vals generalizing ts with
  | nil =>
    simp only [List.mapM_nil, pure, Except.pure] at h
    cases h
    intro acc
    simp [sumContribsGo]
  | cons y ys ih =>
    rw [List.mapM_cons] at h
    cases hy : perYearVal y with
    | error e => rw [hy] at h; simp [Bind.bind, Except.bind] at h
    | ok n =>
      rw [hy] at h
      cases hys : ys.mapM perYearVal with
      | error e => rw [hys] at h; simp [Bind.bind, Except.bind] at h
      | ok ns =>
        rw [hys] at h
        simp only [Bind.bind, Except.bind, pure, Except.pure, Except.ok.injEq] at h
        subst h
        intro acc
        rw [sumContribsGo_cons_ok y n hy ys acc, ih ns hys (acc + n)]
        simp only [List.sum_cons, Except.ok.injEq]
        ring

/-- C8: total_contributions returns 0 (after a logged warning) when the
contribution-years query yields a falsy years list, and otherwise equals
the sum of the per-year total-contribution values extracted from the
response of the single batched all_contribs document built from those
years. -/
theorem c8_total_contributions (oracle : String → J) :
    (∀ years, extractYears (oracle contrib_years) = .ok years →
      years.isTruthy = false → total_contributions oracle = .ok 0) ∧
    (∀ years ys doc viewer vals ts,
      extractYears (oracle contrib_years) = .ok years →
      years.isTruthy = true →
      pyIter years = .ok ys →
      all_contribs ys = .ok doc →
      extractViewer (oracle doc) = .ok viewer →
      pyValues viewer = .ok vals →
      vals.mapM perYearVal = .ok ts →
      total_contributions oracle = .ok ts.sum) := by
  constructor
  · intro years hy hfalse
    unfold total_contributions
    rw [hy]
    simp [Bind.bind, Except.bind, hfalse]
  · intro years ys doc viewer vals ts hy htrue hiter hdoc hviewer hvals hts
    unfold total_contributions
    rw [hy]
    simp only [Bind.bind, Except.bind, htrue, hiter, hdoc, hviewer, hvals,
      Bool.true_eq_false, if_false]
    simpa using sumContribsGo_eq_sum vals ts hts 0

/-- C8 witness: with contribution years 2020 and 2021 reporting 5 and 7,
the total is 12; with no contribution years, the total is 0. -/
theorem c8_total_contributions_witness :
    total_contributions c8Oracle = .ok 12 ∧
    total_contributions c8EmptyOracle = .ok 0 :=
  ⟨(c8_total_contributions c8Oracle).2 _ _ _ _ _ [5, 7] rfl rfl rfl rfl rfl rfl rfl,
   (c8_total_contributions c8EmptyOracle).1 (J.arr []) rfl rfl⟩

/-- Helper: since every iteration of the email loop sends the same
document, a deterministic transport makes every iteration contribute the
same count. -/
theorem total_commits_emails_const (oracle : String → J) (username : String)
    (t : J) (n : Int)
    (ht : commitsRespValue (oracle (user_commits_doc username "")) = .ok (some t))
    (hn : pyNumAdd 0 t = some n) :
    ∀ (es : List String) (acc : Int),
      total_commits_emails oracle username es acc =
        (.ok (J.num (acc + es.length * n)), es.length) := by
  intro es
  induction es with
  | nil => intro acc; simp [total_commits_emails]
  | cons e es ih =>
    intro acc
    have hdoc : user_commits_doc username e = user_commits_doc username "" := rfl
    unfold total_commits_emails
    rw [hdoc]
    simp only [ht, pyNumAdd_shift t n hn acc, ih (acc + n)]
    simp only [List.length_cons, Prod.mk.injEq, Except.ok.injEq, J.num.injEq]
    refine ⟨by push_cast; ring, trivial⟩

/-- C10: the GraphQL document built inside the per-email loop of
total_commits interpolates only the username and never the email, so it is
the same string for every email; consequently, under a deterministic
transport, a k-element email list returns k times the commit count
extracted from that single username-based query (and issues k queries). -/
theorem c10_email_loop_query_constant (oracle : String → J) (username : String)
    (emails : List String) (h : emails ≠ []) :
    (∀ e1 e2, user_commits_doc username e1 = user_commits_doc username e2) ∧
    (∀ t n, commitsRespValue (oracle (user_commits_doc username "")) = .ok (some t) →
      pyNumAdd 0 t = some n →
      total_commits oracle username (some emails) =
        (.ok (J.num (emails.length * n)), emails.length)) := by
  refine ⟨fun e1 e2 => rfl, fun t n ht hn => ?_⟩
  match emails, h with
  | e :: es, _ =>
    show total_commits_emails oracle username (e :: es) 0 = _
    rw [total_commits_emails_const oracle username t n ht hn (e :: es) 0]
    simp

/-- C10 witness: two email identities against a transport reporting 3
commit contributions yield 2 * 3 = 6 after 2 queries. -/
theorem c10_email_loop_query_constant_witness :
    user_commits_doc "octo" "a@x.com" = user_commits_doc "octo" "b@y.org" ∧
    total_commits commitsOracle3 "octo" (some ["a@x.com", "b@y.org"]) =
      (.ok (J.num 6), 2) :=
  ⟨(c10_email_loop_query_constant commitsOracle3 "octo" ["a@x.com", "b@y.org"]
      (by simp)).1 "a@x.com" "b@y.org",
   (c10_email_loop_query_constant commitsOracle3 "octo" ["a@x.com", "b@y.org"]
      (by simp)).2 (J.num 3) 3 rfl rfl⟩

/-- Helper: folding processRepo over a node list extends the repository
set by exactly the first-occurrence non-excluded nodes (keptRepos) and
accumulates stargazers, forks and language edges over exactly those
nodes; the name attribute is untouched. -/
theorem processRepo_fold_spec (exR exLL : List String) (nodes : List (Option RepoNode)) :
    ∀ st : FetchSt,
      (nodes.foldl (processRepo exR exLL) st).repos =
        st.repos ++ (keptRepos exR st.repos nodes).map (fun r => r.nameWithOwner) ∧
      (nodes.foldl (processRepo exR exLL) st).stargazers =
        st.stargazers +
          ((keptRepos exR st.repos nodes).map (fun r => r.stargazersTotalCount.getD 0)).sum ∧
      (nodes.foldl (processRepo exR exLL) st).forks =
        st.forks + ((keptRepos exR st.repos nodes).map (fun r => r.forkCount.getD 0)).sum ∧
      (nodes.foldl (processRepo exR exLL) st).languages =
        (keptRepos exR st.repos nodes).foldl
          (fun m r => r.languages.foldl (processLang exLL) m) st.languages ∧
      (nodes.foldl (processRepo exR exLL) st).name = st.name := by
  induction nodes with
  | nil => intro st; simp [keptRepos]
  | cons nd rest ih =>
    intro st
    match nd with
    | none =>
      simpa [keptRepos, processRepo] using ih st
    | some r =>
      by_cases hskip : (st.repos.contains r.nameWithOwner || memOptStr r.nameWithOwner exR) = true
      · have hp : processRepo exR exLL st (some r) = st := by
          simp only [processRepo]
          rw [hskip]
          simp
        have hk : keptRepos exR st.repos (some r :: rest) = keptRepos exR st.repos rest := by
          simp only [keptRepos]
          rw [hskip]
          simp
        simpa [List.foldl_cons, hp, hk] using ih st
      · have hskip' : (st.repos.contains r.nameWithOwner || memOptStr r.nameWithOwner exR) = false := by
          simpa using hskip
        have hp : processRepo exR exLL st (some r) = { st with
            repos := st.repos ++ [r.nameWithOwner],
            stargazers := st.stargazers + r.stargazersTotalCount.getD 0,
            forks := st.forks + r.forkCount.getD 0,
            languages := r.languages.foldl (processLang exLL) st.languages } := by
          simp only [processRepo]
          rw [hskip']
          simp
        have hk : keptRepos exR st.repos (some r :: rest) =
            r :: keptRepos exR (st.repos ++ [r.nameWithOwner]) rest := by
          simp only [keptRepos]
          rw [hskip']
          simp
        obtain ⟨h1, h2, h3, h4, h5⟩ := ih { st with
            repos := st.repos ++ [r.nameWithOwner],
            stargazers := st.stargazers + r.stargazersTotalCount.getD 0,
            forks := st.forks + r.forkCount.getD 0,
            languages := r.languages.foldl (processLang exLL) st.languages }
        refine ⟨?_, ?_, ?_, ?_, ?_⟩
        · rw [List.foldl_cons, hp, h1, hk]
          simp [List.append_assoc]
        · rw [List.foldl_cons, hp, h2, hk]
          simp [add_assoc]
        · rw [List.foldl_cons, hp, h3, hk]
          simp [add_assoc]
        · rw [List.foldl_cons, hp, h4, hk]
          simp
        · rw [List.foldl_cons, hp, h5]

/-- Helper: the names of the kept nodes extend any duplicate-free seen
set to a duplicate-free list. -/
theorem keptRepos_names_nodup (exR : List String) (nodes : List (Option RepoNode)) :
    ∀ seen : List (Option String), seen.Nodup →
      (seen ++ (keptRepos exR seen nodes).map (fun r => r.nameWithOwner)).Nodup := by
  induction nodes with
  | nil => intro seen h; simpa [keptRepos]
  | cons nd rest ih =>
    intro seen h
    match nd with
    | none => simpa [keptRepos] using ih seen h
    | some r =>
      by_cases hskip : (seen.contains r.nameWithOwner || memOptStr r.nameWithOwner exR) = true
      · have hk : keptRepos exR seen (some r :: rest) = keptRepos exR seen rest := by
          simp only [keptRepos]
          rw [hskip]
          simp
        rw [hk]
        exact ih seen h
      · have hskip' : (seen.contains r.nameWithOwner || memOptStr r.nameWithOwner exR) = false := by
          simpa using hskip
      
        have hk : keptRepos exR seen (some r :: rest) =
            r :: keptRepos exR (seen ++ [r.nameWithOwner]) rest := by
          simp only [keptRepos]
          rw [hskip']
          simp
        have hnotmem : r.nameWithOwner ∉ seen := by
          intro hm
          have hc : seen.contains r.nameWithOwner = true := by
            exact List.elem_eq_true_of_mem hm
          rw [hc] at hskip'
          simp at hskip'
        have hseen2 : (seen ++ [r.nameWithOwner]).Nodup := by
          rw [List.nodup_append]
          refine ⟨h, List.nodup_singleton _, ?_⟩
          intro a ha
          simp only [List.mem_singleton]
          intro heq
          subst heq
          exact hnotmem ha
        have hrec := ih (seen ++ [r.nameWithOwner]) hseen2
        rw [hk]
        simpa [List.append_assoc] using hrec

/-- Helper: no kept node carries an excluded identifier. -/
theorem keptRepos_not_excluded (exR : List String) (nodes : List (Option RepoNode)) :
    ∀ seen, ∀ r ∈ keptRepos exR seen nodes, memOptStr r.nameWithOwner exR = false := by
  induction nodes with
  | nil => intro seen r hr; simp [keptRepos] at hr
  | cons nd rest ih =>
    intro seen r hr
    match nd with
    | none =>
      rw [show keptRepos exR seen (none :: rest) = keptRepos exR seen rest from rfl] at hr
      exact ih seen r hr
    | some q =>
      by_cases hskip : (seen.contains q.nameWithOwner || memOptStr q.nameWithOwner exR) = true
      · have hk : keptRepos exR seen (some q :: rest) = keptRepos exR seen rest := by
          simp only [keptRepos]
          rw [hskip]
          simp
        rw [hk] at hr
        exact ih seen r hr
      · have hskip' : (seen.contains q.nameWithOwner || memOptStr q.nameWithOwner exR) = false := by
          simpa using hskip
        have hk : keptRepos exR seen (some q :: rest) =
            q :: keptRepos exR (seen ++ [q.nameWithOwner]) rest := by
          simp only [keptRepos]
          rw [hskip']
          simp
        rw [hk] at hr
        rcases List.mem_cons.mp hr with hq | hq
        · subst hq
          exact (Bool.or_eq_false_iff.mp hskip').2
        · exact ih (seen ++ [q.nameWithOwner]) r hq

/-- Helper: processRepo neither reads nor writes the name attribute. -/
theorem processRepo_name_comm (exR exLL : List String) (nd : Option RepoNode)
    (st : FetchSt) (x : Option String) :
    processRepo exR exLL { st with name := x } nd =
      { processRepo exR exLL st nd with name := x } := by
  match nd with
  | none => rfl
  | some r =>
    cases st with
    | mk nm sg fk lg rp =>
      by_cases hskip : (rp.contains r.nameWithOwner || memOptStr r.nameWithOwner exR) = true
      · simp only [processRepo]
        rw [hskip]
        simp
      · have hskip' : (rp.contains r.nameWithOwner || memOptStr r.nameWithOwner exR) = false := by
          simpa using hskip
        simp only [processRepo]
        rw [hskip']
        simp

/-- Helper: the name attribute commutes with a processRepo fold. -/
theorem processRepo_fold_name (exR exLL : List String) (nodes : List (Option RepoNode)) :
    ∀ (st : FetchSt) (x : Option String),
      nodes.foldl (processRepo exR exLL) { st with name := x } =
        { nodes.foldl (processRepo exR exLL) st with name := x } := by
  induction nodes with
  | nil => intro st x; rfl
  | cons nd rest ih =>
    intro st x
    rw [List.foldl_cons, List.foldl_cons, processRepo_name_comm]
    exact ih (processRepo exR exLL st nd) x

/-- Helper: a sequence of page bodies accumulates exactly as the fold of
processRepo over the concatenation of the pages' node lists (only the
name attribute differs). -/
theorem processPage_fold_eq (ig : Bool) (exR exLL : List String) (ps : List PageResp) :
    ∀ st : FetchSt,
      (ps.foldl (processPage ig exR exLL) st).repos =
        ((pagesNodes ig ps).foldl (processRepo exR exLL) st).repos ∧
      (ps.foldl (processPage ig exR exLL) st).stargazers =
        ((pagesNodes ig ps).foldl (processRepo exR exLL) st).stargazers ∧
      (ps.foldl (processPage ig exR exLL) st).forks =
        ((pagesNodes ig ps).foldl (processRepo exR exLL) st).forks ∧
      (ps.foldl (processPage ig exR exLL) st).languages =
        ((pagesNodes ig ps).foldl (processRepo exR exLL) st).languages := by
  induction ps with
  | nil => intro st; simp [pagesNodes]
  | cons p ps ih =>
    intro st
    have hpage : processPage ig exR exLL st p =
        { (p.ownedRepos.nodes ++ if ig then [] else p.contribRepos.nodes).foldl
            (processRepo exR exLL) st with
          name := some (match p.name with | some n => n | none => p.login.getD "No Name") } := by
      unfold processPage
      rw [processRepo_fold_name]
    have hpn : pagesNodes ig (p :: ps) =
        (p.ownedRepos.nodes ++ (if ig then [] else p.contribRepos.nodes)) ++ pagesNodes ig ps := by
      simp [pagesNodes]
    obtain ⟨h1, h2, h3, h4⟩ := ih (processPage ig exR exLL st p)
    rw [List.foldl_cons, hpn, List.foldl_append]
    refine ⟨?_, ?_, ?_, ?_⟩
    · rw [h1, hpage, processRepo_fold_name]
    · rw [h2, hpage, processRepo_fold_name]
    · rw [h3, hpage, processRepo_fold_name]
    · rw [h4, hpage, processRepo_fold_name]

/-- C4: over any sequence of repository pages processed by the core fetch
loop body, the resulting repository set is duplicate-free and contains no
identifier from the configured excluded-repository set, and the stargazer,
fork and per-language totals accumulate each repository node at most once:
they equal the totals over the first-occurrence non-excluded nodes
(keptRepos), a list whose names are pairwise distinct. -/
theorem c4_repo_set_invariants (ig : Bool) (excludeRepos excludeLangs : List String)
    (ps : List PageResp) :
    (ps.foldl (processPage ig excludeRepos (excludeLangsLowerOf excludeLangs))
        initFetchSt).repos =
      (keptRepos excludeRepos [] (pagesNodes ig ps)).map (fun r => r.nameWithOwner) ∧
    (ps.foldl (processPage ig excludeRepos (excludeLangsLowerOf excludeLangs))
        initFetchSt).repos.Nodup ∧
    (∀ nm ∈ (ps.foldl (processPage ig excludeRepos (excludeLangsLowerOf excludeLangs))
        initFetchSt).repos, memOptStr nm excludeRepos = false) ∧
    (ps.foldl (processPage ig excludeRepos (excludeLangsLowerOf excludeLangs))
        initFetchSt).stargazers =
      ((keptRepos excludeRepos [] (pagesNodes ig ps)).map
        (fun r => r.stargazersTotalCount.getD 0)).sum ∧
    (ps.foldl (processPage ig excludeRepos (excludeLangsLowerOf excludeLangs))
        initFetchSt).forks =
      ((keptRepos excludeRepos [] (pagesNodes ig ps)).map
        (fun r => r.forkCount.getD 0)).sum ∧
    (ps.foldl (processPage ig excludeRepos (excludeLangsLowerOf excludeLangs))
        initFetchSt).languages =
      (keptRepos excludeRepos [] (pagesNodes ig ps)).foldl
        (fun m r => r.languages.foldl (processLang (excludeLangsLowerOf excludeLangs)) m) [] := by
  obtain ⟨e1, e2, e3, e4⟩ :=
    processPage_fold_eq ig excludeRepos (excludeLangsLowerOf excludeLangs) ps initFetchSt
  obtain ⟨h1, h2, h3, h4, _⟩ :=
    processRepo_fold_spec excludeRepos (excludeLangsLowerOf excludeLangs)
      (pagesNodes ig ps) initFetchSt
  have hrepos : (ps.foldl (processPage ig excludeRepos (excludeLangsLowerOf excludeLangs))
      initFetchSt).repos =
      (keptRepos excludeRepos [] (pagesNodes ig ps)).map (fun r => r.nameWithOwner) := by
    rw [e1, h1]
    simp [initFetchSt]
  refine ⟨hrepos, ?_, ?_, ?_, ?_, ?_⟩
  · rw [hrepos]
    have := keptRepos_names_nodup excludeRepos (pagesNodes ig ps) [] List.nodup_nil
    simpa [initFetchSt] using this
  · intro nm hm
    rw [hrepos] at hm
    obtain ⟨r, hr, hrnm⟩ := List.mem_map.mp hm
    rw [← hrnm]
    exact keptRepos_not_excluded excludeRepos (pagesNodes ig ps) [] r hr
  · rw [e2, h2]
    simp [initFetchSt]
  · rw [e3, h3]
    simp [initFetchSt]
  · rw [e4, h4]
    simp [initFetchSt]


/-- C4 witness: the theorem applied at the concrete page, the membership
hypothesis discharged at octo/r1. -/
theorem c4_repo_set_invariants_witness :
    ([c4Page].foldl (processPage false ["bad/repo"] (excludeLangsLowerOf ["HTML"]))
      initFetchSt).repos.Nodup ∧
    memOptStr (some "octo/r1") ["bad/repo"] = false ∧
    ([c4Page].foldl (processPage false ["bad/repo"] (excludeLangsLowerOf ["HTML"]))
      initFetchSt).stargazers = 5 := by
  refine ⟨(c4_repo_set_invariants false ["bad/repo"] ["HTML"] [c4Page]).2.1,
    (c4_repo_set_invariants false ["bad/repo"] ["HTML"] [c4Page]).2.2.1
      (some "octo/r1") (by decide), ?_⟩
  rw [(c4_repo_set_invariants false ["bad/repo"] ["HTML"] [c4Page]).2.2.2.1]
  decide

/-- Helper: if the response at index i + d reports no further pages on
either connection, fuel d + 1 suffices for the page loop started at
index i. -/
theorem get_stats_loop_isSome (ig : Bool) (exR exLL : List String)
    (stream : Nat → PageResp) :
    ∀ (d i : Nat) (ls : LoopSt),
      ((stream (i + d)).ownedRepos.hasNextPage ||
        (stream (i + d)).contribRepos.hasNextPage) = false →
      (get_stats_loop ig exR exLL stream (d + 1) i ls).isSome := by
  intro d
  induction d with
  | zero =>
    intro i ls h
    rw [Nat.add_zero] at h
    unfold get_stats_loop
    simp [h]
  | succ d ih =>
    intro i ls h
    by_cases hc : ((stream i).ownedRepos.hasNextPage ||
        (stream i).contribRepos.hasNextPage) = true
    · unfold get_stats_loop
      simp only [hc, if_true]
      apply ih (i + 1)
      have heq : i + 1 + d = i + (d + 1) := by omega
      rw [heq]
      exact h
    · have hc' : ((stream i).ownedRepos.hasNextPage ||
          (stream i).contribRepos.hasNextPage) = false := by simpa using hc
      unfold get_stats_loop
      simp [hc']

/-- C6: the get_stats page loop recurses exactly while either the
owned-repositories or the contributed-to connection reports hasNextPage,
returns the accumulated state as soon as both report no further pages,
and hence terminates for every response stream in which some page
eventually reports hasNextPage = false on both connections. -/
theorem c6_pagination_terminates (ig : Bool) (exR exLL : List String)
    (stream : Nat → PageResp) :
    (∀ fuel i ls, ((stream i).ownedRepos.hasNextPage ||
        (stream i).contribRepos.hasNextPage) = false →
      get_stats_loop ig exR exLL stream (fuel + 1) i ls =
        some (processPage ig exR exLL ls.st (stream i))) ∧
    (∀ fuel i ls, ((stream i).ownedRepos.hasNextPage ||
        (stream i).contribRepos.hasNextPage) = true →
      get_stats_loop ig exR exLL stream (fuel + 1) i ls =
        get_stats_loop ig exR exLL stream fuel (i + 1)
          ⟨processPage ig exR exLL ls.st (stream i),
           (stream i).ownedRepos.endCursor.getD ls.nextOwned,
           (stream i).contribRepos.endCursor.getD ls.nextContrib⟩) ∧
    (∀ k, ((stream k).ownedRepos.hasNextPage ||
        (stream k).contribRepos.hasNextPage) = false →
      ∀ ls, (get_stats_loop ig exR exLL stream (k + 1) 0 ls).isSome) := by
  refine ⟨?_, ?_, ?_⟩
  · intro fuel i ls h
    unfold get_stats_loop
    simp [h]
  · intro fuel i ls h
    conv_lhs => unfold get_stats_loop
    simp [h]
  · intro k h ls
    exact get_stats_loop_isSome ig exR exLL stream k 0 ls (by simpa using h)


/-- C6 witness: the theorem applied to the constant stream of a page with
no further pages on either connection: the loop stops on the first
iteration. -/
theorem c6_pagination_terminates_witness :
    (get_stats_loop false ["bad/repo"] [] (fun _ => c4Page) 1 0
      ⟨initFetchSt, none, none⟩).isSome ∧
    get_stats_loop false ["bad/repo"] [] (fun _ => c4Page) 3 0 ⟨initFetchSt, none, none⟩ =
      some (processPage false ["bad/repo"] [] initFetchSt c4Page) :=
  ⟨(c6_pagination_terminates false ["bad/repo"] [] (fun _ => c4Page)).2.2 0 rfl
      ⟨initFetchSt, none, none⟩,
   (c6_pagination_terminates false ["bad/repo"] [] (fun _ => c4Page)).1 2 0
      ⟨initFetchSt, none, none⟩ rfl⟩

/-- Helper: invariant of every reachable system state: at most one
coroutine is inside the lock-guarded section of get_stats (and then the
lock is held), a coroutine in the page loop implies the stats are not yet
marked fetched, and the fetch counter is 0 before the first entry and 1
from the first entry on (tracking which of the three phases the system is
in). -/
theorem c1_invariant (pages : List Int) (n : Nat) :
    ∀ s : Sys, Reachable pages n s →
      ((∀ (k l : Nat) (hk : k < s.coros.length) (hl : l < s.coros.length),
          inLock s.coros[k] = true → inLock s.coros[l] = true → k = l) ∧
       (∀ (k : Nat) (hk : k < s.coros.length), inLock s.coros[k] = true →
          s.shared.lockHeld = true) ∧
       (∀ (k : Nat) (hk : k < s.coros.length), s.coros[k] = CoSt.gsLoop →
          s.shared.statsFetched = false) ∧
       (s.shared.fetchCount = 0 ∧ s.shared.statsFetched = false ∧
          (∀ (k : Nat) (hk : k < s.coros.length), s.coros[k] ≠ CoSt.gsLoop) ∨
        s.shared.fetchCount = 1 ∧ s.shared.statsFetched = true ∧
          (∀ (k : Nat) (hk : k < s.coros.length), s.coros[k] ≠ CoSt.gsLoop) ∨
        s.shared.fetchCount = 1 ∧ s.shared.statsFetched = false ∧
          (∃ (k : Nat) (hk : k < s.coros.length), s.coros[k] = CoSt.gsLoop))) := by
  intro s h
  induction h with
  | refl =>
    have hget : ∀ (k : Nat) (hk : k < (initSys n).coros.length),
        (initSys n).coros[k] = CoSt.acStart := by
      intro k hk
      show (List.replicate n CoSt.acStart)[k] = CoSt.acStart
      exact List.getElem_replicate CoSt.acStart hk
    refine ⟨?_, ?_, ?_, Or.inl ⟨rfl, rfl, ?_⟩⟩
    · intro k l hk hl h1 h2
      rw [hget k hk] at h1
      simp [inLock] at h1
    · intro k hk h1
      rw [hget k hk] at h1
      simp [inLock] at h1
    · intro k hk h1
      rw [hget k hk] at h1
      simp at h1
    · intro k hk h1
      rw [hget k hk] at h1
      simp at h1
  | @tail b c hab hbc ih =>
    obtain ⟨ia, ib, ic, id⟩ := ih
    cases hbc with
    | mk i hi sh2 c2 hco =>
      generalize hsc : b.coros[i] = sc at hco
      cases hco with
      | acHit v hsg =>
        dsimp only
        refine ⟨?_, ?_, ?_, ?_⟩
        · intro k l hk hl h1 h2
          simp only [List.length_set, List.getElem_set] at hk hl h1 h2
          by_cases hik : i = k
          · rw [if_pos hik] at h1
            simp [inLock] at h1
          · rw [if_neg hik] at h1
            by_cases hil : i = l
            · rw [if_pos hil] at h2
              simp [inLock] at h2
            · rw [if_neg hil] at h2
              exact ia k l hk hl h1 h2
        · intro k hk h1
          simp only [List.length_set, List.getElem_set] at hk h1
          by_cases hik : i = k
          · rw [if_pos hik] at h1
            simp [inLock] at h1
          · rw [if_neg hik] at h1
            exact ib k hk h1
        · intro k hk h1
          simp only [List.length_set, List.getElem_set] at hk h1
          by_cases hik : i = k
          · rw [if_pos hik] at h1
            simp at h1
          · rw [if_neg hik] at h1
            exact ic k hk h1
        · rcases id with ⟨h1, h2, h3⟩ | ⟨h1, h2, h3⟩ | ⟨h1, h2, j, hj, hjl⟩
          · refine Or.inl ⟨h1, h2, ?_⟩
            intro k hk
            simp only [List.length_set, List.getElem_set] at hk ⊢
            by_cases hik : i = k
            · rw [if_pos hik]
              simp
            · rw [if_neg hik]
              exact h3 k hk
          · refine Or.inr (Or.inl ⟨h1, h2, ?_⟩)
            intro k hk
            simp only [List.length_set, List.getElem_set] at hk ⊢
            by_cases hik : i = k
            · rw [if_pos hik]
              simp
            · rw [if_neg hik]
              exact h3 k hk
          · refine Or.inr (Or.inr ⟨h1, h2, j, ?_, ?_⟩)
            · simpa [List.length_set] using hj
            · have hne : ¬ (i = j) := by
                intro he
                subst he
                rw [hsc] at hjl
                simp at hjl
              simp only [List.getElem_set]
              rw [if_neg hne]
              exact hjl
      | acMiss hsg =>
        dsimp only
        refine ⟨?_, ?_, ?_, ?_⟩
        · intro k l hk hl h1 h2
          simp only [List.length_set, List.getElem_set] at hk hl h1 h2
          by_cases hik : i = k
          · rw [if_pos hik] at h1
            simp [inLock] at h1
          · rw [if_neg hik] at h1
            by_cases hil : i = l
            · rw [if_pos hil] at h2
              simp [inLock] at h2
            · rw [if_neg hil] at h2
              exact ia k l hk hl h1 h2
        · intro k hk h1
          simp only [List.length_set, List.getElem_set] at hk h1
          by_cases hik : i = k
          · rw [if_pos hik] at h1
            simp [inLock] at h1
          · rw [if_neg hik] at h1
            exact ib k hk h1
        · intro k hk h1
          simp only [List.length_set, List.getElem_set] at hk h1
          by_cases hik : i = k
          · rw [if_pos hik] at h1
            simp at h1
          · rw [if_neg hik] at h1
            exact ic k hk h1
        · rcases id with ⟨h1, h2, h3⟩ | ⟨h1, h2, h3⟩ | ⟨h1, h2, j, hj, hjl⟩
          · refine Or.inl ⟨h1, h2, ?_⟩
            intro k hk
            simp only [List.length_set, List.getElem_set] at hk ⊢
            by_cases hik : i = k
            · rw [if_pos hik]
              simp
            · rw [if_neg hik]
              exact h3 k hk
          · refine Or.inr (Or.inl ⟨h1, h2, ?_⟩)
            intro k hk
            simp only [List.length_set, List.getElem_set] at hk ⊢
            by_cases hik : i = k
            · rw [if_pos hik]
              simp
            · rw [if_neg hik]
              exact h3 k hk
          · refine Or.inr (Or.inr ⟨h1, h2, j, ?_, ?_⟩)
            · simpa [List.length_set] using hj
            · have hne : ¬ (i = j) := by
                intro he
                subst he
                rw [hsc] at hjl
                simp at hjl
              simp only [List.getElem_set]
              rw [if_neg hne]
              exact hjl
      | acquire hlock =>
        dsimp only
        refine ⟨?_, ?_, ?_, ?_⟩
        · intro k l hk hl h1 h2
          simp only [List.length_set, List.getElem_set] at hk hl h1 h2
          by_cases hik : i = k
          · by_cases hil : i = l
            · omega
            · rw [if_neg hil] at h2
              exact absurd (ib l hl h2) (by simp [hlock])
          · rw [if_neg hik] at h1
            exact absurd (ib k hk h1) (by simp [hlock])
        · intro k hk h1
          rfl
        · intro k hk h1
          simp only [List.length_set, List.getElem_set] at hk h1
          by_cases hik : i = k
          · rw [if_pos hik] at h1
            simp at h1
          · rw [if_neg hik] at h1
            exact ic k hk h1
        · rcases id with ⟨h1, h2, h3⟩ | ⟨h1, h2, h3⟩ | ⟨h1, h2, j, hj, hjl⟩
          · refine Or.inl ⟨h1, h2, ?_⟩
            intro k hk
            simp only [List.length_set, List.getElem_set] at hk ⊢
            by_cases hik : i = k
            · rw [if_pos hik]
              simp
            · rw [if_neg hik]
              exact h3 k hk
          · refine Or.inr (Or.inl ⟨h1, h2, ?_⟩)
            intro k hk
            simp only [List.length_set, List.getElem_set] at hk ⊢
            by_cases hik : i = k
            · rw [if_pos hik]
              simp
            · rw [if_neg hik]
              exact h3 k hk
          · exfalso
            have hjlock : inLock b.coros[j] = true := by
              rw [hjl]
              rfl
            exact absurd (ib j hj hjlock) (by simp [hlock])
      | checkFetched v hsf hsg =>
        have hilock : inLock b.coros[i] = true := by
          rw [hsc]
          rfl
        dsimp only
        refine ⟨?_, ?_, ?_, ?_⟩
        · intro k l hk hl h1 h2
          simp only [List.length_set, List.getElem_set] at hk hl h1 h2
          by_cases hik : i = k
          · rw [if_pos hik] at h1
            simp [inLock] at h1
          · rw [if_neg hik] at h1
            exact absurd (ia k i hk hi h1 hilock) (fun he => hik he.symm)
        · intro k hk h1
          simp only [List.length_set, List.getElem_set] at hk h1
          by_cases hik : i = k
          · rw [if_pos hik] at h1
            simp [inLock] at h1
          · rw [if_neg hik] at h1
            exact absurd (ia k i hk hi h1 hilock) (fun he => hik he.symm)
        · intro k hk h1
          simp only [List.length_set, List.getElem_set] at hk h1
          by_cases hik : i = k
          · rw [if_pos hik] at h1
            simp at h1
          · rw [if_neg hik] at h1
            have hklock : inLock b.coros[k] = true := by
              rw [h1]
              rfl
            exact absurd (ia k i hk hi hklock hilock) (fun he => hik he.symm)
        · rcases id with ⟨h1, h2, h3⟩ | ⟨h1, h2, h3⟩ | ⟨h1, h2, j, hj, hjl⟩
          · rw [hsf] at h2
            cases h2
          · refine Or.inr (Or.inl ⟨h1, hsf, ?_⟩)
            intro k hk
            simp only [List.length_set, List.getElem_set] at hk ⊢
            by_cases hik : i = k
            · rw [if_pos hik]
              simp
            · rw [if_neg hik]
              exact h3 k hk
          · rw [hsf] at h2
            cases h2
      | checkInit hsf =>
        have hilock : inLock b.coros[i] = true := by
          rw [hsc]
          rfl
        dsimp only
        refine ⟨?_, ?_, ?_, ?_⟩
        · intro k l hk hl h1 h2
          simp only [List.length_set, List.getElem_set] at hk hl h1 h2
          by_cases hik : i = k
          · by_cases hil : i = l
            · omega
            · rw [if_neg hil] at h2
              exact absurd (ia l i hl hi h2 hilock) (fun he => hil he.symm)
          · rw [if_neg hik] at h1
            exact absurd (ia k i hk hi h1 hilock) (fun he => hik he.symm)
        · intro k hk h1
          exact ib i hi hilock
        · intro k hk h1
          exact hsf
        · rcases id with ⟨h1, h2, h3⟩ | ⟨h1, h2, h3⟩ | ⟨h1, h2, j, hj, hjl⟩
          · refine Or.inr (Or.inr ⟨by simp [h1], hsf, i, ?_, ?_⟩)
            · simpa [List.length_set] using hi
            · simp only [List.getElem_set]
              simp
          · rw [hsf] at h2
            cases h2
          · exfalso
            have hjlock : inLock b.coros[j] = true := by
              rw [hjl]
              rfl
            have hji := ia j i hj hi hjlock hilock
            subst hji
            rw [hsc] at hjl
            simp at hjl
      | page v hpi hsg =>
        have hilock : inLock b.coros[i] = true := by
          rw [hsc]
          rfl
        dsimp only
        refine ⟨?_, ?_, ?_, ?_⟩
        · intro k l hk hl h1 h2
          simp only [List.length_set, List.getElem_set] at hk hl h1 h2
          by_cases hik : i = k
          · by_cases hil : i = l
            · omega
            · rw [if_neg hil] at h2
              exact absurd (ia l i hl hi h2 hilock) (fun he => hil he.symm)
          · rw [if_neg hik] at h1
            exact absurd (ia k i hk hi h1 hilock) (fun he => hik he.symm)
        · intro k hk h1
          exact ib i hi hilock
        · intro k hk h1
          exact ic i hi hsc
        · rcases id with ⟨h1, h2, h3⟩ | ⟨h1, h2, h3⟩ | ⟨h1, h2, j, hj, hjl⟩
          · exact absurd hsc (h3 i hi)
          · exact absurd hsc (h3 i hi)
          · refine Or.inr (Or.inr ⟨h1, h2, i, ?_, ?_⟩)
            · simpa [List.length_set] using hi
            · simp only [List.getElem_set]
              simp
      | finish v hpi hsg =>
        have hilock : inLock b.coros[i] = true := by
          rw [hsc]
          rfl
        dsimp only
        refine ⟨?_, ?_, ?_, ?_⟩
        · intro k l hk hl h1 h2
          simp only [List.length_set, List.getElem_set] at hk hl h1 h2
          by_cases hik : i = k
          · rw [if_pos hik] at h1
            simp [inLock] at h1
          · rw [if_neg hik] at h1
            exact absurd (ia k i hk hi h1 hilock) (fun he => hik he.symm)
        · intro k hk h1
          simp only [List.length_set, List.getElem_set] at hk h1
          by_cases hik : i = k
          · rw [if_pos hik] at h1
            simp [inLock] at h1
          · rw [if_neg hik] at h1
            exact absurd (ia k i hk hi h1 hilock) (fun he => hik he.symm)
        · intro k hk h1
          simp only [List.length_set, List.getElem_set] at hk h1
          by_cases hik : i = k
          · rw [if_pos hik] at h1
            simp at h1
          · rw [if_neg hik] at h1
            have hklock : inLock b.coros[k] = true := by
              rw [h1]
              rfl
            exact absurd (ia k i hk hi hklock hilock) (fun he => hik he.symm)
        · rcases id with ⟨h1, h2, h3⟩ | ⟨h1, h2, h3⟩ | ⟨h1, h2, j, hj, hjl⟩
          · exact absurd hsc (h3 i hi)
          · exact absurd hsc (h3 i hi)
          · refine Or.inr (Or.inl ⟨h1, rfl, ?_⟩)
            intro k hk
            simp only [List.length_set, List.getElem_set] at hk ⊢
            by_cases hik : i = k
            · rw [if_pos hik]
              simp
            · rw [if_neg hik]
              intro hgl
              have hklock : inLock b.coros[k] = true := by
                rw [hgl]
                rfl
              exact absurd (ia k i hk hi hklock hilock) (fun he => hik he.symm)

/-- C1 (amended): under every cooperative interleaving of any number of
consumers of the stargazers accessor, the fetch-and-merge sequence of
get_stats starts at most once (fetchCount never exceeds 1) and at most
one coroutine is ever inside the lock-guarded critical section, so there
is no duplicate fetch sequence and no interleaved writes to the shared
accumulators.  (The further part of the original claim, that all
concurrent requesters block until the first execution completes and
observe the same memoized result, is refuted by
the counterexample trace: an accessor that runs while the fetch is in
flight returns a partially accumulated value immediately.) -/
theorem c1_core_fetch_at_most_once (pages : List Int) (n : Nat) (s : Sys)
    (h : Reachable pages n s) :
    s.shared.fetchCount ≤ 1 ∧
    (∀ (k l : Nat) (hk : k < s.coros.length) (hl : l < s.coros.length),
      inLock s.coros[k] = true → inLock s.coros[l] = true → k = l) := by
  obtain ⟨ia, ib, ic, id⟩ := c1_invariant pages n s h
  refine ⟨?_, ia⟩
  rcases id with ⟨h1, _, _⟩ | ⟨h1, _, _⟩ | ⟨h1, _, _⟩ <;> omega

/-- C1 witness: the amended theorem applied to a concrete reachable state
in which one consumer holds the lock inside get_stats. -/
theorem c1_core_fetch_at_most_once_witness :
    (⟨⟨none, false, true, 0, 0⟩, [CoSt.gsCheck, CoSt.acStart]⟩ : Sys).shared.fetchCount ≤ 1 ∧
    (0 : Nat) = 0 := by
  have st1 : SysStep [5, 7] (initSys 2)
      ⟨⟨none, false, false, 0, 0⟩, [CoSt.gsWait, CoSt.acStart]⟩ :=
    SysStep.mk (initSys 2) 0 (by decide) _ _ (CoStep.acMiss _ rfl)
  have st2 : SysStep [5, 7] ⟨⟨none, false, false, 0, 0⟩, [CoSt.gsWait, CoSt.acStart]⟩
      ⟨⟨none, false, true, 0, 0⟩, [CoSt.gsCheck, CoSt.acStart]⟩ :=
    SysStep.mk ⟨⟨none, false, false, 0, 0⟩, [CoSt.gsWait, CoSt.acStart]⟩ 0 (by decide) _ _
      (CoStep.acquire _ rfl)
  have hreach : Reachable [5, 7] 2
      ⟨⟨none, false, true, 0, 0⟩, [CoSt.gsCheck, CoSt.acStart]⟩ :=
    Relation.ReflTransGen.tail (Relation.ReflTransGen.tail Relation.ReflTransGen.refl st1) st2
  have h := c1_core_fetch_at_most_once [5, 7] 2 _ hreach
  exact ⟨h.1, h.2 0 0 (by decide) (by decide) (by decide) (by decide)⟩

/-- C1 counterexample: with pages contributing 5 and 7 stargazers and two
concurrent consumers, the schedule in which consumer 0 starts the fetch,
consumer 1 reads the stargazers accessor after the first page has been
accumulated, and consumer 0 then finishes, ends with consumer 1 having
returned 5 and consumer 0 having returned 12 -- so it is not the case
that all concurrent requesters observe the same memoized result, as the
claim states; the mid-flight reader neither blocks nor sees the final
value. -/
theorem c1_concurrent_readers_counterexample :
    ¬ (∀ s : Sys, Reachable [5, 7] 2 s →
        ∀ v w : Int, CoSt.done v ∈ s.coros → CoSt.done w ∈ s.coros → v = w) := by
  intro hclaim
  have st1 : SysStep [5, 7] (initSys 2)
      ⟨⟨none, false, false, 0, 0⟩, [CoSt.gsWait, CoSt.acStart]⟩ :=
    SysStep.mk (initSys 2) 0 (by decide) _ _ (CoStep.acMiss _ rfl)
  have st2 : SysStep [5, 7] ⟨⟨none, false, false, 0, 0⟩, [CoSt.gsWait, CoSt.acStart]⟩
      ⟨⟨none, false, true, 0, 0⟩, [CoSt.gsCheck, CoSt.acStart]⟩ :=
    SysStep.mk ⟨⟨none, false, false, 0, 0⟩, [CoSt.gsWait, CoSt.acStart]⟩ 0 (by decide) _ _
      (CoStep.acquire _ rfl)
  have st3 : SysStep [5, 7] ⟨⟨none, false, true, 0, 0⟩, [CoSt.gsCheck, CoSt.acStart]⟩
      ⟨⟨some 0, false, true, 1, 0⟩, [CoSt.gsLoop, CoSt.acStart]⟩ :=
    SysStep.mk ⟨⟨none, false, true, 0, 0⟩, [CoSt.gsCheck, CoSt.acStart]⟩ 0 (by decide) _ _
      (CoStep.checkInit _ rfl)
  have st4 : SysStep [5, 7] ⟨⟨some 0, false, true, 1, 0⟩, [CoSt.gsLoop, CoSt.acStart]⟩
      ⟨⟨some 5, false, true, 1, 1⟩, [CoSt.gsLoop, CoSt.acStart]⟩ :=
    SysStep.mk ⟨⟨some 0, false, true, 1, 0⟩, [CoSt.gsLoop, CoSt.acStart]⟩ 0 (by decide) _ _
      (CoStep.page _ 0 (by decide) rfl)
  have st5 : SysStep [5, 7] ⟨⟨some 5, false, true, 1, 1⟩, [CoSt.gsLoop, CoSt.acStart]⟩
      ⟨⟨some 5, false, true, 1, 1⟩, [CoSt.gsLoop, CoSt.done 5]⟩ :=
    SysStep.mk ⟨⟨some 5, false, true, 1, 1⟩, [CoSt.gsLoop, CoSt.acStart]⟩ 1 (by decide) _ _
      (CoStep.acHit _ 5 rfl)
  have st6 : SysStep [5, 7] ⟨⟨some 5, false, true, 1, 1⟩, [CoSt.gsLoop, CoSt.done 5]⟩
      ⟨⟨some 12, false, true, 1, 2⟩, [CoSt.gsLoop, CoSt.done 5]⟩ :=
    SysStep.mk ⟨⟨some 5, false, true, 1, 1⟩, [CoSt.gsLoop, CoSt.done 5]⟩ 0 (by decide) _ _
      (CoStep.page _ 5 (by decide) rfl)
  have st7 : SysStep [5, 7] ⟨⟨some 12, false, true, 1, 2⟩, [CoSt.gsLoop, CoSt.done 5]⟩
      ⟨⟨some 12, true, false, 1, 2⟩, [CoSt.done 12, CoSt.done 5]⟩ :=
    SysStep.mk ⟨⟨some 12, false, true, 1, 2⟩, [CoSt.gsLoop, CoSt.done 5]⟩ 0 (by decide) _ _
      (CoStep.finish _ 12 rfl rfl)
  have hreach : Reachable [5, 7] 2
      ⟨⟨some 12, true, false, 1, 2⟩, [CoSt.done 12, CoSt.done 5]⟩ :=
    Relation.ReflTransGen.tail (Relation.ReflTransGen.tail (Relation.ReflTransGen.tail
      (Relation.ReflTransGen.tail (Relation.ReflTransGen.tail (Relation.ReflTransGen.tail
      (Relation.ReflTransGen.tail Relation.ReflTransGen.refl st1) st2) st3) st4) st5) st6) st7
  have h12 := hclaim _ hreach 12 5 (by decide) (by decide)
  exact absurd h12 (by decide)
